import Mathlib

/-!
Shallow embedding of the webhook receiver service core
(signature verification, rate limiting, bounded event storage),
translated from the TypeScript/NestJS source:
`webhooks.service.ts`, `webhooks.storage.ts`, and the rate-limit guard.

Bytes are modelled as `Nat` values below 256, byte strings as `List Nat`,
and JavaScript strings as Lean `String`.
-/

set_option maxRecDepth 100000

namespace WebhookService

/-! ### UTF-8 encoding of strings (Node string-to-bytes conversion) -/

/-- UTF-8 encoding of a single character, as a list of byte values. -/
def charUtf8 (c : Char) : List Nat :=
  let n := c.toNat
  if n < 128 then [n]
  else if n < 2048 then [192 + n / 64, 128 + n % 64]
  else if n < 65536 then [224 + n / 4096, 128 + n / 64 % 64, 128 + n % 64]
  else [240 + n / 262144, 128 + n / 4096 % 64, 128 + n / 64 % 64, 128 + n % 64]

/-- UTF-8 bytes of a string, as Node produces for hashing string input. -/
def utf8Bytes (s : String) : List Nat :=
  s.data.flatMap charUtf8

/-! ### Hexadecimal encoding and Node `Buffer.from(s, 'hex')` decoding -/

/-- The lowercase hex digit for a value below 16 (digits then letters). -/
def hexDigitChar (n : Nat) : Char :=
  if n < 10 then Char.ofNat (48 + n) else Char.ofNat (87 + n)

/-- The two lowercase hex characters of one byte. -/
def byteToHex (b : Nat) : List Char :=
  [hexDigitChar (b / 16), hexDigitChar (b % 16)]

/-- Lowercase hex encoding of a byte list, as `digest('hex')` returns. -/
def hexEncode (bytes : List Nat) : String :=
  ⟨bytes.flatMap byteToHex⟩

/-- Value of one hex character; accepts both cases, as Node hex decoding does. -/
def hexVal (c : Char) : Option Nat :=
  if 48 ≤ c.toNat ∧ c.toNat ≤ 57 then some (c.toNat - 48)
  else if 97 ≤ c.toNat ∧ c.toNat ≤ 102 then some (c.toNat - 87)
  else if 65 ≤ c.toNat ∧ c.toNat ≤ 70 then some (c.toNat - 55)
  else none

/-- Decode hex characters two at a time, stopping at the first invalid
character and dropping a trailing lone nibble, as Node does. -/
def hexPairs : List Char → List Nat
  | c1 :: c2 :: rest =>
    match hexVal c1, hexVal c2 with
    | some hi, some lo => (16 * hi + lo) :: hexPairs rest
    | _, _ => []
  | _ => []

/-- Model of Node `Buffer.from(s, 'hex')`: decoding never fails, it truncates
at the first invalid character. -/
def bufferFromHex (s : String) : List Nat :=
  hexPairs s.data

/-! ### SHA-256 (the `crypto` hash used by `createHmac('sha256', _)`) -/

/-- 32-bit modular addition. -/
def add32 (a b : Nat) : Nat :=
  (a + b) % 4294967296

/-- Rotate a 32-bit word right by `n` bits. -/
def rotr32 (n x : Nat) : Nat :=
  ((x >>> n) ||| (x <<< (32 - n))) % 4294967296

/-- Bitwise complement within 32 bits. -/
def not32 (x : Nat) : Nat :=
  x ^^^ 4294967295

/-- SHA-256 Ch function. -/
def sha256Ch (x y z : Nat) : Nat :=
  (x &&& y) ^^^ (not32 x &&& z)

/-- SHA-256 Maj function. -/
def sha256Maj (x y z : Nat) : Nat :=
  (x &&& y) ^^^ (x &&& z) ^^^ (y &&& z)

/-- SHA-256 big sigma 0. -/
def bigSigma0 (x : Nat) : Nat :=
  rotr32 2 x ^^^ rotr32 13 x ^^^ rotr32 22 x

/-- SHA-256 big sigma 1. -/
def bigSigma1 (x : Nat) : Nat :=
  rotr32 6 x ^^^ rotr32 11 x ^^^ rotr32 25 x

/-- SHA-256 small sigma 0. -/
def smallSigma0 (x : Nat) : Nat :=
  rotr32 7 x ^^^ rotr32 18 x ^^^ (x >>> 3)

/-- SHA-256 small sigma 1. -/
def smallSigma1 (x : Nat) : Nat :=
  rotr32 17 x ^^^ rotr32 19 x ^^^ (x >>> 10)

/-- The 64 SHA-256 round constants. -/
def sha256K : List Nat :=
  [1116352408, 1899447441, 3049323471, 3921009573, 961987163, 1508970993,
   2453635748, 2870763221, 3624381080, 310598401, 607225278, 1426881987,
   1925078388, 2162078206, 2614888103, 3248222580, 3835390401, 4022224774,
   264347078, 604807628, 770255983, 1249150122, 1555081692, 1996064986,
   2554220882, 2821834349, 2952996808, 3210313671, 3336571891, 3584528711,
   113926993, 338241895, 666307205, 773529912, 1294757372, 1396182291,
   1695183700, 1986661051, 2177026350, 2456956037, 2730485921, 2820302411,
   3259730800, 3345764771, 3516065817, 3600352804, 4094571909, 275423344,
   430227734, 506948616, 659060556, 883997877, 958139571, 1322822218,
   1537002063, 1747873779, 1955562222, 2024104815, 2227730452, 2361852424,
   2428436474, 2756734187, 3204031479, 3329325298]

/-- The eight working variables of the SHA-256 compression function. -/
structure Sha256State where
  a : Nat
  b : Nat
  c : Nat
  d : Nat
  e : Nat
  f : Nat
  g : Nat
  h : Nat
deriving Repr, DecidableEq

/-- The SHA-256 initial hash value. -/
def sha256Init : Sha256State :=
  ⟨1779033703, 3144134277, 1013904242, 2773480762,
   1359893119, 2600822924, 528734635, 1541459225⟩

/-- One SHA-256 round; `kw` is the already-added `K[i] + W[i]`. -/
def sha256Round (s : Sha256State) (kw : Nat) : Sha256State :=
  let t1 := add32 s.h (add32 (bigSigma1 s.e) (add32 (sha256Ch s.e s.f s.g) kw))
  let t2 := add32 (bigSigma0 s.a) (sha256Maj s.a s.b s.c)
  ⟨add32 t1 t2, s.a, s.b, s.c, add32 s.d t1, s.e, s.f, s.g⟩

/-- Big-endian bytes-to-word conversion for four bytes. -/
def wordOfBytes (b0 b1 b2 b3 : Nat) : Nat :=
  b0 * 16777216 + b1 * 65536 + b2 * 256 + b3

/-- Group a byte list into big-endian 32-bit words. -/
def bytesToWords : List Nat → List Nat
  | b0 :: b1 :: b2 :: b3 :: rest => wordOfBytes b0 b1 b2 b3 :: bytesToWords rest
  | _ => []

/-- Extend the 16-word message schedule with `fuel` further words. -/
def extendSchedule : Nat → List Nat → List Nat
  | 0, ws => ws
  | fuel + 1, ws =>
    let n := ws.length
    let w := add32 (add32 (smallSigma1 (ws.getD (n - 2) 0)) (ws.getD (n - 7) 0))
                   (add32 (smallSigma0 (ws.getD (n - 15) 0)) (ws.getD (n - 16) 0))
    extendSchedule fuel (ws ++ [w])

/-- The 64-word message schedule for one 64-byte block. -/
def schedule (block : List Nat) : List Nat :=
  extendSchedule 48 (bytesToWords block)

/-- Process one 64-byte block: 64 rounds and the feed-forward addition. -/
def processBlock (s : Sha256State) (block : List Nat) : Sha256State :=
  let ws := schedule block
  let t := (sha256K.zip ws).foldl (fun st kw => sha256Round st (add32 kw.1 kw.2)) s
  ⟨add32 s.a t.a, add32 s.b t.b, add32 s.c t.c, add32 s.d t.d,
   add32 s.e t.e, add32 s.f t.f, add32 s.g t.g, add32 s.h t.h⟩

/-- Big-endian encoding of `v` into `n` bytes. -/
def beBytes : Nat → Nat → List Nat
  | 0, _ => []
  | m + 1, v => beBytes m (v / 256) ++ [v % 256]

/-- SHA-256 padding for a message of `len` bytes: a `0x80` byte, zero bytes up
to 56 mod 64, then the 64-bit big-endian bit length. -/
def sha256Pad (len : Nat) : List Nat :=
  128 :: List.replicate ((119 - len % 64) % 64) 0 ++ beBytes 8 (len * 8)

/-- Split a byte list into 64-byte chunks, with recursion fuel. -/
def chunks64 : Nat → List Nat → List (List Nat)
  | 0, _ => []
  | _, [] => []
  | fuel + 1, l => l.take 64 :: chunks64 fuel (l.drop 64)

/-- Big-endian bytes of one 32-bit word. -/
def wordBytes (w : Nat) : List Nat :=
  [w / 16777216 % 256, w / 65536 % 256, w / 256 % 256, w % 256]

/-- Big-endian bytes of a word list. -/
def wordsToBytes (ws : List Nat) : List Nat :=
  ws.flatMap wordBytes

/-- The SHA-256 digest (32 bytes) of a byte-list message. -/
def sha256 (msg : List Nat) : List Nat :=
  let padded := msg ++ sha256Pad msg.length
  let final := (chunks64 (padded.length + 1) padded).foldl processBlock sha256Init
  wordsToBytes [final.a, final.b, final.c, final.d,
                final.e, final.f, final.g, final.h]

/-- HMAC-SHA256 over byte lists, with the standard 64-byte block size. -/
def hmacSha256 (key msg : List Nat) : List Nat :=
  let k0 := if key.length > 64 then sha256 key else key
  let k1 := k0 ++ List.replicate (64 - k0.length) 0
  let ipadKey := k1.map (fun b => b ^^^ 54)
  let opadKey := k1.map (fun b => b ^^^ 92)
  sha256 (opadKey ++ sha256 (ipadKey ++ msg))

/-- SHA-256 FIPS test vector for the message `abc`. -/
theorem sha256_abc :
    hexEncode (sha256 (utf8Bytes "abc")) =
      "ba7816bf8f01cfea414140de5dae2223b00361a396177a9cb410ff61f20015ad" := by
  decide

/-- SHA-256 digest of the empty message. -/
theorem sha256_empty :
    hexEncode (sha256 []) =
      "e3b0c44298fc1c149afbf4c8996fb92427ae41e4649b934ca495991b7852b855" := by
  decide

/-- RFC 4231 test case 2 for HMAC-SHA256. -/
theorem hmacSha256_rfc4231_case2 :
    hexEncode (hmacSha256 (utf8Bytes "Jefe")
        (utf8Bytes "what do ya want for nothing?")) =
      "5bdcc146bf60754e6a042426089575c75a003f089d2739839dec58b964ec3843" := by
  decide

/-! ### Signature verification (`WebhooksService.verifySignature`) -/

/-- Model of `WebhooksService.verifySignature`, from `webhooks.service.ts`.
The secret is configured once; the payload is received as the canonical
serialization bytes that `JSON.stringify` produces; the signature is the
optional `x-webhook-signature` header value.  JavaScript falsiness of the
secret and of the signature is the empty string or absence, and
`timingSafeEqual` on the two equal-length buffers is byte-list equality. -/
def verifySignature (webhookSecret : String) (payloadBytes : List Nat)
    (signature : Option String) : Bool :=
  if webhookSecret = "" then false
  else
    match signature with
    | none => false
    | some sig =>
      if sig = "" then false
      else
        let expectedSignature :=
          hexEncode (hmacSha256 (utf8Bytes webhookSecret) payloadBytes)
        let expectedBuffer := bufferFromHex expectedSignature
        let providedBuffer := bufferFromHex sig
        if expectedBuffer.length ≠ providedBuffer.length then false
        else expectedBuffer == providedBuffer

/-- `b` differs from `c` in exactly one bit of one byte. -/
def oneBitDiff (b c : Nat) : Bool :=
  decide ((b ^^^ c) ∈ ([1, 2, 4, 8, 16, 32, 64, 128] : List Nat))

/-- The two byte lists differ in exactly one bit. -/
def oneBitFlip : List Nat → List Nat → Bool
  | [], [] => false
  | b :: bs, c :: cs =>
    (decide (b = c) && oneBitFlip bs cs) || (oneBitDiff b c && decide (bs = cs))
  | _, _ => false

/-! ### Facts about hex encoding and decoding -/

theorem hexVal_hexDigitChar : ∀ n, n < 16 → hexVal (hexDigitChar n) = some n := by
  decide

theorem hexPairs_flatMap_byteToHex :
    ∀ bs : List Nat, (∀ b ∈ bs, b < 256) →
      hexPairs (bs.flatMap byteToHex) = bs := by
  intro bs
  induction bs with
  | nil => intro _; rfl
  | cons b rest ih =>
    intro hlt
    have hb : b < 256 := hlt b (by simp)
    have h1 : hexVal (hexDigitChar (b / 16)) = some (b / 16) :=
      hexVal_hexDigitChar _ (by omega)
    have h2 : hexVal (hexDigitChar (b % 16)) = some (b % 16) :=
      hexVal_hexDigitChar _ (by omega)
    have hshape : (b :: rest).flatMap byteToHex
        = hexDigitChar (b / 16) :: hexDigitChar (b % 16) :: rest.flatMap byteToHex := by
      simp [byteToHex]
    rw [hshape]
    simp only [hexPairs, h1, h2]
    have hb16 : 16 * (b / 16) + b % 16 = b := by omega
    rw [hb16, ih fun x hx => hlt x (by simp [hx])]

theorem bufferFromHex_hexEncode (bs : List Nat) (hlt : ∀ b ∈ bs, b < 256) :
    bufferFromHex (hexEncode bs) = bs := by
  simpa [bufferFromHex, hexEncode] using hexPairs_flatMap_byteToHex bs hlt

theorem hexEncode_ne_empty (bs : List Nat) (hne : bs ≠ []) :
    hexEncode bs ≠ "" := by
  cases bs with
  | nil => exact absurd rfl hne
  | cons b rest =>
    intro h
    have : (hexEncode (b :: rest)).data = ("" : String).data := by rw [h]
    simp [hexEncode, byteToHex] at this

/-! ### Facts about digest shape -/

theorem mem_wordsToBytes_lt (ws : List Nat) :
    ∀ b ∈ wordsToBytes ws, b < 256 := by
  intro b hb
  simp only [wordsToBytes, List.mem_flatMap, wordBytes, List.mem_cons,
    List.mem_singleton, List.not_mem_nil, or_false] at hb
  obtain ⟨w, _, hw⟩ := hb
  rcases hw with rfl | rfl | rfl | rfl
  all_goals exact Nat.mod_lt _ (by omega)

theorem sha256_length (msg : List Nat) : (sha256 msg).length = 32 := by
  simp [sha256, wordsToBytes, wordBytes]

theorem sha256_lt (msg : List Nat) : ∀ b ∈ sha256 msg, b < 256 := by
  intro b hb
  exact mem_wordsToBytes_lt _ b hb

theorem hmacSha256_length (key msg : List Nat) :
    (hmacSha256 key msg).length = 32 := by
  unfold hmacSha256
  exact sha256_length _

theorem hmacSha256_lt (key msg : List Nat) :
    ∀ b ∈ hmacSha256 key msg, b < 256 := by
  unfold hmacSha256
  exact sha256_lt _

theorem hmacSha256_ne_nil (key msg : List Nat) : hmacSha256 key msg ≠ [] := by
  intro h
  have := hmacSha256_length key msg
  rw [h] at this
  simp at this

/-- The accepting runs of `verifySignature` with a nonempty secret and a
nonempty signature string are exactly those whose Node-decoded signature
bytes equal the expected HMAC digest. -/
theorem verifySignature_eq_true_iff (secret : String) (P : List Nat)
    (sig : String) (hsec : secret ≠ "") (hsig : sig ≠ "") :
    verifySignature secret P (some sig) = true ↔
      bufferFromHex sig = hmacSha256 (utf8Bytes secret) P := by
  have hdec :
      bufferFromHex (hexEncode (hmacSha256 (utf8Bytes secret) P)) =
        hmacSha256 (utf8Bytes secret) P :=
    bufferFromHex_hexEncode _ (hmacSha256_lt _ _)
  simp only [verifySignature, if_neg hsec, if_neg hsig, hdec]
  by_cases hlen :
      (hmacSha256 (utf8Bytes secret) P).length = (bufferFromHex sig).length
  · rw [if_neg (by simp [hlen])]
    simp only [beq_iff_eq]
    exact eq_comm
  · rw [if_pos (by simpa using hlen)]
    constructor
    · intro h
      exact absurd h (by simp)
    · intro h
      exact absurd (by rw [h]) hlen

/-- C1 (amended): with a nonempty secret `S` and payload bytes `P`,
`verifySignature` accepts the lowercase hex HMAC-SHA256 tag; it rejects any
tag string whose Node hex decoding differs from the expected digest (in
particular any bit flip of the tag that changes the decoded bytes); it
rejects the correct tag for any payload whose HMAC digest differs (in
particular any bit flip of `P` that changes the digest); and with the empty
secret it rejects everything. -/
theorem C1_hmac_verification (S : String) (hS : S ≠ "") (P : List Nat) :
    verifySignature S P (some (hexEncode (hmacSha256 (utf8Bytes S) P))) = true
    ∧ (∀ t, bufferFromHex t ≠ hmacSha256 (utf8Bytes S) P →
        verifySignature S P (some t) = false)
    ∧ (∀ Q, hmacSha256 (utf8Bytes S) Q ≠ hmacSha256 (utf8Bytes S) P →
        verifySignature S Q (some (hexEncode (hmacSha256 (utf8Bytes S) P))) = false)
    ∧ (∀ Q t, verifySignature "" Q t = false) := by
  have hne : hexEncode (hmacSha256 (utf8Bytes S) P) ≠ "" :=
    hexEncode_ne_empty _ (hmacSha256_ne_nil _ _)
  have hdec : bufferFromHex (hexEncode (hmacSha256 (utf8Bytes S) P))
      = hmacSha256 (utf8Bytes S) P :=
    bufferFromHex_hexEncode _ (hmacSha256_lt _ _)
  refine ⟨?_, ?_, ?_, ?_⟩
  · exact (verifySignature_eq_true_iff S P _ hS hne).mpr hdec
  · intro t hti
    by_cases ht : t = ""
    · subst ht
      simp [verifySignature, hS]
    · cases hb : verifySignature S P (some t) with
      | false => rfl
      | true =>
        exact absurd ((verifySignature_eq_true_iff S P t hS ht).mp hb) hti
  · intro Q hQ
    cases hb : verifySignature S Q (some (hexEncode (hmacSha256 (utf8Bytes S) P))) with
    | false => rfl
    | true =>
      have hq := (verifySignature_eq_true_iff S Q _ hS hne).mp hb
      exact absurd (hq.symm.trans hdec) hQ
  · intro Q t
    cases t <;> simp [verifySignature]

/-- Witness for C1: concrete accepting and rejecting runs at secret `s`,
payload byte `97`. -/
theorem C1_hmac_verification_witness :
    verifySignature "s" [97]
      (some (hexEncode (hmacSha256 (utf8Bytes "s") [97]))) = true
    ∧ verifySignature "s" [97]
        (some "0000000000000000000000000000000000000000000000000000000000000000")
        = false
    ∧ verifySignature "s" [96]
        (some (hexEncode (hmacSha256 (utf8Bytes "s") [97]))) = false
    ∧ verifySignature "" [97] none = false := by
  have h := C1_hmac_verification "s" (by decide) [97]
  exact ⟨h.1, h.2.1 _ (by decide), h.2.2.1 [96] (by decide), h.2.2.2 [97] none⟩

/-- Counterexample to C1 as stated: flipping the single bit `0x20` of the
ASCII letter `d` at position 13 of the correct tag (turning it into `D`) is
a one-bit flip of the tag, yet verification still returns `true`, because
Node hex decoding is case-insensitive. -/
theorem C1_bitflip_tag_counterexample :
    "9659450897188d054f9c20310342e042c55697737b2798b59f8f1cef7dda0674"
      = hexEncode (hmacSha256 (utf8Bytes "s") [97])
    ∧ oneBitFlip
        (utf8Bytes "9659450897188d054f9c20310342e042c55697737b2798b59f8f1cef7dda0674")
        (utf8Bytes "9659450897188D054f9c20310342e042c55697737b2798b59f8f1cef7dda0674")
        = true
    ∧ verifySignature "s" [97]
        (some "9659450897188D054f9c20310342e042c55697737b2798b59f8f1cef7dda0674")
        = true := by
  refine ⟨by decide, by decide, by decide⟩

/-- C7 (amended): `verifySignature` is a total function; it returns `false`
when the secret is empty, when the tag is absent or empty, and when the
Node hex decoding of the tag (which never fails: it truncates at the first
invalid character) has byte length other than 32. -/
theorem C7_verify_total (secret : String) (P : List Nat) :
    (∀ t, verifySignature "" P t = false)
    ∧ verifySignature secret P none = false
    ∧ verifySignature secret P (some "") = false
    ∧ (∀ t, (bufferFromHex t).length ≠ 32 →
        verifySignature secret P (some t) = false) := by
  refine ⟨?_, ?_, ?_, ?_⟩
  · intro t
    cases t <;> simp [verifySignature]
  · simp [verifySignature]
  · simp [verifySignature]
  · intro t hlen
    by_cases hsec : secret = ""
    · subst hsec
      simp [verifySignature]
    · by_cases ht : t = ""
      · subst ht
        simp [verifySignature, hsec]
      · cases hb : verifySignature secret P (some t) with
        | false => rfl
        | true =>
          have hq := (verifySignature_eq_true_iff secret P t hsec ht).mp hb
          exact absurd (by rw [hq, hmacSha256_length]) hlen

/-- Witness for C7: the four rejecting cases at concrete inputs. -/
theorem C7_verify_total_witness :
    verifySignature "" [97] (some "abc") = false
    ∧ verifySignature "s" [97] none = false
    ∧ verifySignature "s" [97] (some "") = false
    ∧ verifySignature "s" [97] (some "zz") = false := by
  have h := C7_verify_total "s" [97]
  exact ⟨h.1 (some "abc"), h.2.1, h.2.2.1, h.2.2.2 "zz" (by decide)⟩

/-- Counterexample to C7 as stated: a tag that is not valid hex (it ends in
`zz`) nevertheless verifies as `true`, because Node hex decoding truncates
at the first invalid character instead of failing. -/
theorem C7_invalid_hex_counterexample :
    (("27e6af74a061a5f40d6d0176376ae333768e477fdf1d1d756828aaf1192fd664zz"
        : String).data.all fun c => (hexVal c).isSome) = false
    ∧ verifySignature "s" [98]
        (some "27e6af74a061a5f40d6d0176376ae333768e477fdf1d1d756828aaf1192fd664zz")
        = true := by
  refine ⟨by decide, by decide⟩

/-! ### Rate limiting (`RateLimitGuard.canActivate`) -/

/-- Per-identity rate-limit record, from the rate-limit guard:
`count` requests observed, window expiring at `resetTime` (ms). -/
structure RateLimitRecord where
  count : Nat
  resetTime : Nat
deriving Repr, DecidableEq

/-- Outcome of the guard for one request: allowed through, or rejected with
the `retryAfter` seconds reported in the 429 body. -/
inductive RateLimitDecision where
  | allow : RateLimitDecision
  | reject (retryAfterSeconds : Nat) : RateLimitDecision
deriving Repr, DecidableEq

/-- Model of `RateLimitGuard.canActivate` for one client identity: the map
lookup yields `record`; the function returns the decision and the record
stored for that identity afterwards.  `Math.ceil((resetTime - now) / 1000)`
on the reject path is the natural-number ceiling division, written out. -/
def rateLimitStep (maxRequests windowMs : Nat) (record : Option RateLimitRecord)
    (now : Nat) : RateLimitDecision × RateLimitRecord :=
  match record with
  | none => (.allow, ⟨1, now + windowMs⟩)
  | some r =>
    if now > r.resetTime then (.allow, ⟨1, now + windowMs⟩)
    else if r.count ≥ maxRequests then
      (.reject ((r.resetTime - now + 999) / 1000), r)
    else (.allow, ⟨r.count + 1, r.resetTime⟩)

/-- C2: the per-identity rate limiter is the claimed transition function:
no record or an expired window resets to count 1 with a fresh window and
admits; a live window below `maxRequests` increments and admits; a live
window at or above `maxRequests` rejects reporting
`ceil((windowResetAt - now) / 1000)` seconds (for naturals,
`(windowResetAt - now + 999) / 1000`) and leaves the record unchanged.
With `maxRequests = 2` requests 1 and 2 in a window are admitted, request 3
is rejected, and after the window elapses the next request is admitted with
the count reset to 1. -/
theorem C2_rate_limiter (maxRequests windowMs now : Nat) :
    rateLimitStep maxRequests windowMs none now = (.allow, ⟨1, now + windowMs⟩)
    ∧ (∀ c r, now > r → rateLimitStep maxRequests windowMs (some ⟨c, r⟩) now
        = (.allow, ⟨1, now + windowMs⟩))
    ∧ (∀ c r, now ≤ r → c < maxRequests →
        rateLimitStep maxRequests windowMs (some ⟨c, r⟩) now
          = (.allow, ⟨c + 1, r⟩))
    ∧ (∀ c r, now ≤ r → maxRequests ≤ c →
        rateLimitStep maxRequests windowMs (some ⟨c, r⟩) now
          = (.reject ((r - now + 999) / 1000), ⟨c, r⟩))
    ∧ (∀ w t0 t1 t2 t3, t1 ≤ t0 + w → t2 ≤ t0 + w → t0 + w < t3 →
        rateLimitStep 2 w none t0 = (.allow, ⟨1, t0 + w⟩)
        ∧ rateLimitStep 2 w (some ⟨1, t0 + w⟩) t1 = (.allow, ⟨2, t0 + w⟩)
        ∧ rateLimitStep 2 w (some ⟨2, t0 + w⟩) t2
            = (.reject ((t0 + w - t2 + 999) / 1000), ⟨2, t0 + w⟩)
        ∧ rateLimitStep 2 w (some ⟨2, t0 + w⟩) t3 = (.allow, ⟨1, t3 + w⟩)) := by
  refine ⟨rfl, ?_, ?_, ?_, ?_⟩
  · intro c r h
    simp [rateLimitStep, h]
  · intro c r h1 h2
    simp [rateLimitStep, show ¬ now > r by omega, show ¬ maxRequests ≤ c by omega]
  · intro c r h1 h2
    simp [rateLimitStep, show ¬ now > r by omega, h2]
  · intro w t0 t1 t2 t3 h1 h2 h3
    refine ⟨rfl, ?_, ?_, ?_⟩
    · simp [rateLimitStep, show ¬ t1 > t0 + w by omega]
    · simp [rateLimitStep, show ¬ t2 > t0 + w by omega]
    · simp [rateLimitStep, h3]

/-- Witness for C2: concrete transitions, including the
`maxRequests = 2, windowDurationMs = 1000` scenario with requests at
times 0, 400, 900 and 1500. -/
theorem C2_rate_limiter_witness :
    rateLimitStep 5 1000 none 0 = (.allow, ⟨1, 1000⟩)
    ∧ rateLimitStep 5 1000 (some ⟨3, 800⟩) 900 = (.allow, ⟨1, 1900⟩)
    ∧ rateLimitStep 5 1000 (some ⟨1, 800⟩) 700 = (.allow, ⟨2, 800⟩)
    ∧ rateLimitStep 5 1000 (some ⟨5, 800⟩) 700 = (.reject 1, ⟨5, 800⟩)
    ∧ rateLimitStep 2 1000 none 0 = (.allow, ⟨1, 1000⟩)
    ∧ rateLimitStep 2 1000 (some ⟨1, 1000⟩) 400 = (.allow, ⟨2, 1000⟩)
    ∧ rateLimitStep 2 1000 (some ⟨2, 1000⟩) 900 = (.reject 1, ⟨2, 1000⟩)
    ∧ rateLimitStep 2 1000 (some ⟨2, 1000⟩) 1500 = (.allow, ⟨1, 2500⟩) := by
  have h := C2_rate_limiter 5 1000 0
  have h700 := C2_rate_limiter 5 1000 700
  have h900 := C2_rate_limiter 5 1000 900
  have hs := (C2_rate_limiter 2 1000 0).2.2.2.2 1000 0 400 900 1500
    (by decide) (by decide) (by decide)
  exact ⟨h.1, h900.2.1 3 800 (by decide), h700.2.2.1 1 800 (by decide) (by decide),
    h700.2.2.2.1 5 800 (by decide) (by decide), hs.1, hs.2.1, hs.2.2.1, hs.2.2.2⟩

/-! ### Bounded event storage (`WebhooksStorage`) -/

/-- A stored webhook event, from `webhook.interface.ts`.  The JSON payload
object is modelled as an association list of string keys to string values,
and `receivedAt` is the millisecond timestamp of the `Date`. -/
structure Webhook where
  id : String
  source : String
  event : String
  payload : List (String × String)
  receivedAt : Int
  signature : Option String
  verified : Bool
deriving Repr, DecidableEq

/-- The insertion-ordered entry list of the backing `Map<string, Webhook>`:
JavaScript `Map` iterates in insertion order, so the first entry is the
oldest webhook. -/
abbrev StoreEntries := List (String × Webhook)

/-- `Map.set(k, v)`: replace in place when the key exists, else append. -/
def mapSet (k : String) (v : Webhook) : StoreEntries → StoreEntries
  | [] => [(k, v)]
  | e :: rest => if e.1 = k then (k, v) :: rest else e :: mapSet k v rest

/-- `Map.delete(k)`: remove the entry with that key, when present. -/
def mapDelete (k : String) : StoreEntries → StoreEntries
  | [] => []
  | e :: rest => if e.1 = k then rest else e :: mapDelete k rest

/-- `Map.get(k)`, as used by `WebhooksStorage.getById`. -/
def mapGet (k : String) (entries : StoreEntries) : Option Webhook :=
  (entries.find? fun e => e.1 == k).map fun e => e.2

/-- Model of `WebhooksStorage.save`: when the population is at or above
`maxStorageSize`, look up the first (oldest) key and delete it — guarded by
JavaScript truthiness, so an `undefined` key (empty map) and the empty
string key are both skipped — then `Map.set` the new webhook. -/
def save (maxStorageSize : Nat) (entries : StoreEntries) (w : Webhook) :
    StoreEntries :=
  let afterEvict :=
    if entries.length ≥ maxStorageSize then
      match entries.head? with
      | some oldest => if oldest.1 = "" then entries else mapDelete oldest.1 entries
      | none => entries
    else entries
  mapSet w.id w afterEvict

/-- A sequence of `save` calls starting from the empty store. -/
def saveAll (maxStorageSize : Nat) (ws : List Webhook) : StoreEntries :=
  ws.foldl (save maxStorageSize) []

/-- The options object taken by `WebhooksStorage.getAll`. -/
structure GetAllOptions where
  page : Option Nat
  limit : Option Nat
  source : Option String
  event : Option String

/-- JavaScript `x || d` for an optional number: `undefined` and `0` are
falsy and give the default. -/
def jsOrNat (v : Option Nat) (d : Nat) : Nat :=
  match v with
  | none => d
  | some n => if n = 0 then d else n

/-- The filtering stage of `getAll`: `Array.from(map.values())`, then the
source filter and the event filter, each applied only when the option is a
truthy (nonempty) string. -/
def filteredMatches (entries : StoreEntries) (sourceFilter eventFilter : Option String) :
    List Webhook :=
  let arr := entries.map fun e => e.2
  let arr1 :=
    match sourceFilter with
    | some s => if s = "" then arr else arr.filter fun w => w.source == s
    | none => arr
  match eventFilter with
  | some s => if s = "" then arr1 else arr1.filter fun w => w.event == s
  | none => arr1

/-- The sorting stage of `getAll`: `Array.prototype.sort` with comparator
`(a, b) => b.receivedAt.getTime() - a.receivedAt.getTime()`.  ES2019 sort is
stable, and with this comparator `a` may precede `b` exactly when
`b.receivedAt ≤ a.receivedAt`, so it is stable merge sort under that
relation. -/
def sortWebhooks (l : List Webhook) : List Webhook :=
  l.mergeSort fun a b => decide (b.receivedAt ≤ a.receivedAt)

/-- The filtered and sorted match list `webhooksArray` of `getAll`. -/
def orderedMatches (entries : StoreEntries) (sourceFilter eventFilter : Option String) :
    List Webhook :=
  sortWebhooks (filteredMatches entries sourceFilter eventFilter)

/-- Model of `WebhooksStorage.getAll`: filter, sort, then return the slice
`[(page-1)*limit, (page-1)*limit + limit)` (JavaScript `slice`, which
clamps out-of-range indices) together with the pre-pagination total. -/
def getAll (entries : StoreEntries) (options : GetAllOptions) :
    List Webhook × Nat :=
  let sorted := orderedMatches entries options.source options.event
  let total := sorted.length
  let page := jsOrNat options.page 1
  let limit := jsOrNat options.limit 10
  let startIndex := (page - 1) * limit
  ((sorted.drop startIndex).take limit, total)

/-- `WebhooksStorage.count`. -/
def storageCount (entries : StoreEntries) : Nat :=
  entries.length

/-- The validated body of a webhook creation request
(`create-webhook.dto.ts`), with the payload object as an association list. -/
structure CreateWebhookDto where
  source : String
  event : String
  payload : List (String × String)
deriving Repr, DecidableEq

/-- One character of `JSON.stringify` string quoting. -/
def jsonEscapeChar (c : Char) : String :=
  if c = '"' then "\\\""
  else if c = '\\' then "\\\\"
  else if c.toNat = 8 then "\\b"
  else if c.toNat = 9 then "\\t"
  else if c.toNat = 10 then "\\n"
  else if c.toNat = 12 then "\\f"
  else if c.toNat = 13 then "\\r"
  else if c.toNat < 32 then
    "\\u00" ++ ⟨[hexDigitChar (c.toNat / 16), hexDigitChar (c.toNat % 16)]⟩
  else String.singleton c

/-- `JSON.stringify` of a string value. -/
def jsonString (s : String) : String :=
  "\"" ++ String.join (s.data.map jsonEscapeChar) ++ "\""

/-- `JSON.stringify` of an object whose field values are already
serialized, in property insertion order with no whitespace. -/
def jsonObjRaw (fields : List (String × String)) : String :=
  "\x7b" ++ String.intercalate "," (fields.map fun f => jsonString f.1 ++ ":" ++ f.2)
    ++ "\x7d"

/-- `JSON.stringify(payload)` as called in `verifySignature`, where
`payload` is the whole `CreateWebhookDto`. -/
def stringifyDto (d : CreateWebhookDto) : String :=
  jsonObjRaw [("source", jsonString d.source), ("event", jsonString d.event),
              ("payload", jsonObjRaw (d.payload.map fun f => (f.1, jsonString f.2)))]

/-- The acceptance response of `WebhooksService.create`. -/
structure WebhookResponse where
  id : String
  message : String
deriving Repr, DecidableEq

/-- Model of `WebhooksService.create`: the generated `randomUUID()` value
and the `new Date()` timestamp enter as the `id` and `now` parameters; the
signature is verified (its outcome is recorded, never a rejection reason),
the webhook is saved, and the acceptance response is returned. -/
def create (webhookSecret : String) (maxStorageSize : Nat)
    (entries : StoreEntries) (dto : CreateWebhookDto)
    (signature : Option String) (id : String) (now : Int) :
    StoreEntries × WebhookResponse :=
  let verified := verifySignature webhookSecret (utf8Bytes (stringifyDto dto)) signature
  let webhook : Webhook :=
    ⟨id, dto.source, dto.event, dto.payload, now, signature, verified⟩
  (save maxStorageSize entries webhook, ⟨id, "Webhook received"⟩)

/-- The validated query of the list endpoint (`query-webhooks.dto.ts`):
absent fields are `undefined`. -/
structure QueryWebhooksDto where
  page : Option Nat
  limit : Option Nat
  source : Option String
  event : Option String

/-- The list response of `WebhooksService.findAll`. -/
structure WebhooksListResponse where
  webhooks : List Webhook
  count : Nat
  page : Nat
  limit : Nat
  totalPages : Nat
deriving Repr, DecidableEq

/-- Model of `WebhooksService.findAll`: destructuring defaults
`page = 1, limit = 10` for absent fields, delegation to `getAll`, and
pagination metadata with `totalPages = Math.ceil(total / limit)` — for
naturals and `limit ≥ 1`, `(total + limit - 1) / limit`. -/
def findAll (entries : StoreEntries) (query : QueryWebhooksDto) :
    WebhooksListResponse :=
  let page := query.page.getD 1
  let limit := query.limit.getD 10
  let result := getAll entries ⟨some page, some limit, query.source, query.event⟩
  ⟨result.1, result.1.length, page, limit, (result.2 + limit - 1) / limit⟩

/-! ### Facts about the map operations and `save` -/

/-- The entry list a webhook list denotes when inserted in order. -/
def entriesOf (ws : List Webhook) : StoreEntries :=
  ws.map fun w => (w.id, w)

theorem length_mapSet_le (k : String) (v : Webhook) :
    ∀ l : StoreEntries, (mapSet k v l).length ≤ l.length + 1 := by
  intro l
  induction l with
  | nil => simp [mapSet]
  | cons e rest ih =>
    by_cases hk : e.1 = k
    · simp [mapSet, hk]
    · simp only [mapSet, if_neg hk, List.length_cons]
      omega

theorem mem_mapSet (k : String) (v : Webhook) :
    ∀ l : StoreEntries, ∀ e ∈ mapSet k v l, e = (k, v) ∨ e ∈ l := by
  intro l
  induction l with
  | nil =>
    intro e he
    simp [mapSet] at he
    exact Or.inl he
  | cons x rest ih =>
    intro e he
    by_cases hk : x.1 = k
    · simp only [mapSet, if_pos hk, List.mem_cons] at he
      rcases he with h | h
      · exact Or.inl h
      · exact Or.inr (List.mem_cons_of_mem _ h)
    · simp only [mapSet, if_neg hk, List.mem_cons] at he
      rcases he with h | h
      · exact Or.inr (by simp [h])
      · rcases ih e h with h1 | h1
        · exact Or.inl h1
        · exact Or.inr (List.mem_cons_of_mem _ h1)

theorem mapSet_fresh (k : String) (v : Webhook) :
    ∀ l : StoreEntries, k ∉ l.map Prod.fst → mapSet k v l = l ++ [(k, v)] := by
  intro l
  induction l with
  | nil => intro _; rfl
  | cons e rest ih =>
    intro hk
    simp only [List.map_cons, List.mem_cons, not_or] at hk
    have hne : ¬ e.1 = k := fun h => hk.1 h.symm
    simp only [mapSet, if_neg hne, List.cons_append]
    rw [ih hk.2]

theorem mapDelete_head (k : String) (v : Webhook) (rest : StoreEntries) :
    mapDelete k ((k, v) :: rest) = rest := by
  simp [mapDelete]

theorem mapGet_not_mem (k : String) :
    ∀ l : StoreEntries, k ∉ l.map Prod.fst → mapGet k l = none := by
  intro l
  induction l with
  | nil => intro _; rfl
  | cons e rest ih =>
    intro hk
    simp only [List.map_cons, List.mem_cons, not_or] at hk
    have hne : ¬ (e.1 == k) = true := by
      simp only [beq_iff_eq]
      exact fun h => hk.1 h.symm
    simp only [mapGet,
      @List.find?_cons_of_neg _ (fun x => x.1 == k) e rest hne]
    exact ih hk.2

theorem mapGet_entriesOf_mem (ws : List Webhook)
    (hnd : (ws.map Webhook.id).Nodup) :
    ∀ w ∈ ws, mapGet w.id (entriesOf ws) = some w := by
  induction ws with
  | nil => intro w hw; cases hw
  | cons x rest ih =>
    intro w hw
    simp only [List.map_cons, List.nodup_cons] at hnd
    rcases List.mem_cons.mp hw with rfl | hmem
    · simp [mapGet, entriesOf]
    · have hne : ¬ ((x.id : String) == w.id) = true := by
        simp only [beq_iff_eq]
        intro h
        exact hnd.1 (h ▸ List.mem_map_of_mem Webhook.id hmem)
      have hne2 : ¬ (((x.id, x) : String × Webhook).1 == w.id) = true := hne
      simp only [entriesOf, List.map_cons, mapGet,
        @List.find?_cons_of_neg _ (fun y => y.1 == w.id) (x.id, x)
          (rest.map fun w => (w.id, w)) hne2]
      exact ih hnd.2 w hmem

theorem mapGet_mapSet_self (k : String) (v : Webhook) :
    ∀ l : StoreEntries, mapGet k (mapSet k v l) = some v := by
  intro l
  induction l with
  | nil => simp [mapSet, mapGet]
  | cons e rest ih =>
    by_cases hk : e.1 = k
    · simp [mapSet, hk, mapGet]
    · have hne : ¬ (e.1 == k) = true := by
        simp only [beq_iff_eq]
        exact hk
      simp only [mapSet, if_neg hk, mapGet,
        @List.find?_cons_of_neg _ (fun x => x.1 == k) e (mapSet k v rest) hne]
      exact ih

theorem entriesOf_keys (ws : List Webhook) :
    (entriesOf ws).map Prod.fst = ws.map Webhook.id := by
  simp [entriesOf, List.map_map, Function.comp]

/-- One `save` under a positive capacity keeps the population within the
capacity and keeps every key nonempty. -/
theorem save_preserves (cap : Nat) (hcap : 1 ≤ cap) (st : StoreEntries)
    (w : Webhook) (hlen : st.length ≤ cap) (hkeys : ∀ e ∈ st, e.1 ≠ "")
    (hw : w.id ≠ "") :
    (save cap st w).length ≤ cap ∧ ∀ e ∈ save cap st w, e.1 ≠ "" := by
  by_cases hge : st.length ≥ cap
  · cases st with
    | nil =>
      simp only [List.length_nil] at hge
      omega
    | cons x t =>
      have hx : x.1 ≠ "" := hkeys x (by simp)
      have hge2 : cap ≤ t.length + 1 := by simpa using hge
      have hsave : save cap (x :: t) w = mapSet w.id w t := by
        simp [save, hge2, hx, mapDelete]
      rw [hsave]
      refine ⟨?_, ?_⟩
      · have hm := length_mapSet_le w.id w t
        simp only [List.length_cons] at hlen
        omega
      · intro e he
        rcases mem_mapSet w.id w t e he with rfl | hm
        · exact hw
        · exact hkeys e (List.mem_cons_of_mem _ hm)
  · have hsave : save cap st w = mapSet w.id w st := by
      simp [save, hge]
    rw [hsave]
    refine ⟨?_, ?_⟩
    · have hm := length_mapSet_le w.id w st
      omega
    · intro e he
      rcases mem_mapSet w.id w st e he with rfl | hm
      · exact hw
      · exact hkeys e hm

theorem saveAll_go (cap : Nat) (hcap : 1 ≤ cap) :
    ∀ (ws : List Webhook) (st : StoreEntries), st.length ≤ cap →
      (∀ e ∈ st, e.1 ≠ "") → (∀ w ∈ ws, w.id ≠ "") →
      (ws.foldl (save cap) st).length ≤ cap := by
  intro ws
  induction ws with
  | nil =>
    intro st h1 _ _
    simpa using h1
  | cons w ws ih =>
    intro st h1 h2 h3
    simp only [List.foldl_cons]
    obtain ⟨l1, l2⟩ := save_preserves cap hcap st w h1 h2 (h3 w (by simp))
    exact ih _ l1 l2 fun x hx => h3 x (List.mem_cons_of_mem _ hx)

/-- C3 (amended): for every configured capacity of at least 1 and every
sequence of `save` calls of webhooks with nonempty ids starting from the
empty store, `count() <= capacity` holds after every call (the final state
of every such sequence, hence every prefix, is within capacity). -/
theorem C3_capacity_bound (cap : Nat) (hcap : 1 ≤ cap) (ws : List Webhook)
    (hids : ∀ w ∈ ws, w.id ≠ "") :
    storageCount (saveAll cap ws) ≤ cap :=
  saveAll_go cap hcap ws [] (by simp) (by simp) hids

/-- Witness for C3: three saves into a store of capacity 2 stay within
capacity. -/
theorem C3_capacity_bound_witness :
    storageCount (saveAll 2
      [⟨"a", "stripe", "push", [], 0, none, false⟩,
       ⟨"b", "stripe", "push", [], 1, none, false⟩,
       ⟨"c", "stripe", "push", [], 2, none, false⟩]) ≤ 2 :=
  C3_capacity_bound 2 (by decide) _ (by decide)

/-- Counterexample to C3 as stated over every configured capacity: with
capacity 0, a single save leaves one event in the store, not zero, because
the eviction branch finds no oldest key in the empty map and `Map.set`
still inserts. -/
theorem C3_zero_capacity_counterexample :
    ¬ storageCount
        (saveAll 0 [⟨"a", "stripe", "push", [], 0, none, false⟩]) ≤ 0 := by
  decide

theorem saveAll_fill (cap : Nat) :
    ∀ (ws : List Webhook) (st : StoreEntries),
      st.length + ws.length ≤ cap →
      (st.map Prod.fst ++ ws.map Webhook.id).Nodup →
      ws.foldl (save cap) st = st ++ entriesOf ws := by
  intro ws
  induction ws with
  | nil =>
    intro st _ _
    simp [entriesOf]
  | cons w ws ih =>
    intro st hlen hnd
    simp only [List.foldl_cons]
    simp only [List.length_cons] at hlen
    have hfresh : w.id ∉ st.map Prod.fst := by
      intro hmem
      exact (List.disjoint_of_nodup_append hnd) hmem (by simp)
    have hsave : save cap st w = st ++ [(w.id, w)] := by
      simp only [save, if_neg (by omega : ¬ st.length ≥ cap)]
      exact mapSet_fresh w.id w st hfresh
    rw [hsave]
    have hnd2 : ((st ++ [(w.id, w)]).map Prod.fst ++ ws.map Webhook.id).Nodup := by
      simpa [List.append_assoc] using hnd
    have hlen2 : (st ++ [(w.id, w)]).length + ws.length ≤ cap := by
      simp only [List.length_append, List.length_cons, List.length_nil]
      omega
    rw [ih _ hlen2 hnd2]
    simp [entriesOf]

/-- C4 (amended): with capacity `N ≥ 1`, after saving `N+1` events with
pairwise distinct nonempty ids in order into the empty store, the store
holds exactly the entries of `e2..e(N+1)` in insertion order: the save at
capacity evicted exactly the earliest-inserted event `e1`, so
`getById(e1.id)` is absent and every later event is present.  (The
nonempty-id requirement is forced: a falsy empty-string oldest key is
never deleted by the eviction branch.) -/
theorem C4_fifo_eviction (cap : Nat) (hcap : 1 ≤ cap) (e1 : Webhook)
    (rest : List Webhook) (hlen : rest.length = cap)
    (hnd : ((e1 :: rest).map Webhook.id).Nodup)
    (hids : ∀ e ∈ e1 :: rest, e.id ≠ "") :
    saveAll cap (e1 :: rest) = entriesOf rest
    ∧ mapGet e1.id (saveAll cap (e1 :: rest)) = none
    ∧ ∀ e ∈ rest, mapGet e.id (saveAll cap (e1 :: rest)) = some e := by
  rw [List.map_cons, List.nodup_cons] at hnd
  obtain ⟨hd1, hdrest⟩ := hnd
  rcases List.eq_nil_or_concat rest with rfl | ⟨front, a, hc⟩
  · simp at hlen
    omega
  · rw [List.concat_eq_append] at hc
    subst hc
    have hfrontlen : front.length + 1 = cap := by
      simpa using hlen
    have hfrontnd : ((e1 :: front).map Webhook.id).Nodup := by
      have hsub : ((e1 :: front).map Webhook.id).Sublist
          ((e1 :: (front ++ [a])).map Webhook.id) := by
        simp only [List.map_cons, List.map_append]
        exact List.Sublist.cons₂ _ (List.sublist_append_left _ _)
      refine List.Nodup.sublist hsub ?_
      rw [List.map_cons, List.nodup_cons]
      exact ⟨hd1, hdrest⟩
    have hmain : saveAll cap (e1 :: (front ++ [a])) = entriesOf (front ++ [a]) := by
      have hsplit : (e1 :: (front ++ [a])) = (e1 :: front) ++ [a] := by simp
      rw [saveAll, hsplit, List.foldl_append]
      have hfill : (e1 :: front).foldl (save cap) [] = entriesOf (e1 :: front) := by
        have := saveAll_fill cap (e1 :: front) []
          (by simp; omega) (by simpa using hfrontnd)
        simpa using this
      rw [hfill]
      simp only [List.foldl_cons, List.foldl_nil]
      have hcaplen : ((e1.id, e1) :: front.map fun w => (w.id, w)).length ≥ cap := by
        simp
        omega
      have he1 : e1.id ≠ "" := hids e1 (by simp)
      have hevict : save cap (entriesOf (e1 :: front)) a
          = mapSet a.id a (entriesOf front) := by
        simp only [entriesOf, List.map_cons, save, List.head?_cons,
          if_pos hcaplen, if_neg he1]
        rw [mapDelete_head]
      rw [hevict]
      have hafresh : a.id ∉ (entriesOf front).map Prod.fst := by
        rw [entriesOf_keys]
        intro hmem
        have : ¬ (front.map Webhook.id ++ [a].map Webhook.id).Nodup := by
          rw [List.nodup_append]
          intro h
          exact h.2.2 hmem (by simp)
        rw [← List.map_append] at this
        exact this hdrest
      rw [mapSet_fresh a.id a _ hafresh]
      simp [entriesOf]
    refine ⟨hmain, ?_, ?_⟩
    · rw [hmain]
      refine mapGet_not_mem e1.id _ ?_
      rw [entriesOf_keys]
      exact hd1
    · intro e he
      rw [hmain]
      exact mapGet_entriesOf_mem _ hdrest e he

/-- Witness for C4: capacity 1, saving `a` then `b`: `a` is evicted and
`b` is present. -/
theorem C4_fifo_eviction_witness :
    mapGet "a" (saveAll 1
      [⟨"a", "stripe", "push", [], 0, none, false⟩,
       ⟨"b", "stripe", "push", [], 1, none, false⟩]) = none
    ∧ mapGet "b" (saveAll 1
      [⟨"a", "stripe", "push", [], 0, none, false⟩,
       ⟨"b", "stripe", "push", [], 1, none, false⟩])
      = some ⟨"b", "stripe", "push", [], 1, none, false⟩ := by
  have h := C4_fifo_eviction 1 (by decide)
    ⟨"a", "stripe", "push", [], 0, none, false⟩
    [⟨"b", "stripe", "push", [], 1, none, false⟩]
    (by decide) (by decide) (by decide)
  exact ⟨h.2.1, h.2.2 ⟨"b", "stripe", "push", [], 1, none, false⟩ (by decide)⟩

/-- Counterexample to C4 as stated: with capacity 1 and the two distinct
ids `""` and `"b"`, the oldest event with id `""` is still present after
the second save — the empty-string key is falsy in JavaScript, so the
eviction branch never deletes it. -/
theorem C4_empty_id_counterexample :
    ("" : String) ≠ "b"
    ∧ mapGet "" (saveAll 1
        [⟨"", "stripe", "push", [], 0, none, false⟩,
         ⟨"b", "stripe", "push", [], 1, none, false⟩])
      = some ⟨"", "stripe", "push", [], 0, none, false⟩ := by
  refine ⟨by decide, by decide⟩

theorem save_zero_step (st : StoreEntries)
    (hst : st = [] ∨ ∃ k v, st = [(k, v)] ∧ k ≠ "") (w : Webhook) :
    save 0 st w = [(w.id, w)] := by
  rcases hst with rfl | ⟨k, v, rfl, hk⟩
  · rfl
  · simp [save, mapDelete, hk, mapSet]

theorem saveAll_zero_go :
    ∀ (ws : List Webhook) (st : StoreEntries),
      (st = [] ∨ ∃ k v, st = [(k, v)] ∧ k ≠ "") →
      (∀ x ∈ ws, x.id ≠ "") → ∀ w : Webhook, w.id ≠ "" →
      (ws ++ [w]).foldl (save 0) st = [(w.id, w)] := by
  intro ws
  induction ws with
  | nil =>
    intro st hst _ w hw
    simpa using save_zero_step st hst w
  | cons x ws ih =>
    intro st hst hids w hw
    simp only [List.cons_append, List.foldl_cons]
    rw [save_zero_step st hst x]
    exact ih _ (Or.inr ⟨x.id, x, rfl, hids x (by simp)⟩)
      (fun y hy => hids y (List.mem_cons_of_mem _ hy)) w hw

/-- C6 (amended): with configured capacity 0, every `save` call on a
nonempty store evicts the single resident event and then inserts, so after
every save (of webhooks with nonempty ids, starting from empty) the store
holds exactly the most recently saved event: `count()` is 1, not 0. -/
theorem C6_zero_capacity (ws : List Webhook) (w : Webhook)
    (hids : ∀ x ∈ ws, x.id ≠ "") (hw : w.id ≠ "") :
    saveAll 0 (ws ++ [w]) = [(w.id, w)]
    ∧ storageCount (saveAll 0 (ws ++ [w])) = 1 := by
  have h : saveAll 0 (ws ++ [w]) = [(w.id, w)] :=
    saveAll_zero_go ws [] (Or.inl rfl) hids w hw
  refine ⟨h, ?_⟩
  rw [storageCount, h]
  rfl

/-- Witness for C6: two saves at capacity 0 leave exactly the second
event. -/
theorem C6_zero_capacity_witness :
    saveAll 0
      [⟨"a", "stripe", "push", [], 0, none, false⟩,
       ⟨"b", "stripe", "push", [], 1, none, false⟩]
      = [("b", ⟨"b", "stripe", "push", [], 1, none, false⟩)]
    ∧ storageCount (saveAll 0
        [⟨"a", "stripe", "push", [], 0, none, false⟩,
         ⟨"b", "stripe", "push", [], 1, none, false⟩]) = 1 :=
  C6_zero_capacity [⟨"a", "stripe", "push", [], 0, none, false⟩]
    ⟨"b", "stripe", "push", [], 1, none, false⟩ (by decide) (by decide)

/-- Counterexample to C6 as stated: with capacity 0 the store is not empty
after a save — a single save into the empty store keeps the new event,
because there is no oldest key to evict and `Map.set` still inserts. -/
theorem C6_store_not_empty_counterexample :
    storageCount (saveAll 0 [⟨"c", "github", "push", [], 0, none, false⟩]) ≠ 0 := by
  decide

/-! ### Sorting facts for the query path -/

theorem recvLe_trans (a b c : Webhook) :
    decide (b.receivedAt ≤ a.receivedAt) = true →
    decide (c.receivedAt ≤ b.receivedAt) = true →
    decide (c.receivedAt ≤ a.receivedAt) = true := by
  simp only [decide_eq_true_eq]
  exact fun h1 h2 => le_trans h2 h1

theorem recvLe_total (a b : Webhook) :
    (decide (b.receivedAt ≤ a.receivedAt)
      || decide (a.receivedAt ≤ b.receivedAt)) = true := by
  simpa using le_total b.receivedAt a.receivedAt

theorem orderedMatches_length (entries : StoreEntries)
    (sourceFilter eventFilter : Option String) :
    (orderedMatches entries sourceFilter eventFilter).length
      = (filteredMatches entries sourceFilter eventFilter).length := by
  simp [orderedMatches, sortWebhooks, List.length_mergeSort]

/-- C8: for every admitted inbound event, whatever `verifySignature`
returns, `create` saves the event with `verified` set to that outcome and
returns the acceptance response `{ id, message: "Webhook received" }`;
verification never causes rejection. -/
theorem C8_create_always_accepts (secret : String) (cap : Nat)
    (entries : StoreEntries) (dto : CreateWebhookDto) (sig : Option String)
    (id : String) (now : Int) :
    (create secret cap entries dto sig id now).2 = ⟨id, "Webhook received"⟩
    ∧ mapGet id (create secret cap entries dto sig id now).1
      = some ⟨id, dto.source, dto.event, dto.payload, now, sig,
          verifySignature secret (utf8Bytes (stringifyDto dto)) sig⟩ := by
  refine ⟨rfl, ?_⟩
  simp only [create, save]
  exact mapGet_mapSet_self id _ _

/-- C10 (implicit claim): an empty-string source or event filter is falsy
in JavaScript, so the filter guard is skipped and the query behaves exactly
as if the filter were absent — every event passes that filter. -/
theorem C10_empty_filter_like_absent (entries : StoreEntries)
    (page limit : Option Nat) (src evt : Option String) :
    getAll entries ⟨page, limit, some "", evt⟩
      = getAll entries ⟨page, limit, none, evt⟩
    ∧ getAll entries ⟨page, limit, src, some ""⟩
      = getAll entries ⟨page, limit, src, none⟩ := by
  constructor <;> simp [getAll, orderedMatches, filteredMatches]

/-- C5 (amended): every query result is ordered by `receivedAt`
descending, and any two matching events with equal `receivedAt` appear in
insertion order — the EARLIEST-inserted first, because ES2019
`Array.prototype.sort` is stable and the comparator treats equal
timestamps as equivalent. -/
theorem C5_ordering (entries : StoreEntries) (options : GetAllOptions) :
    ((getAll entries options).1).Pairwise
      (fun a b => b.receivedAt ≤ a.receivedAt)
    ∧ ∀ a b : Webhook, a.receivedAt = b.receivedAt →
        ([a, b] : List Webhook).Sublist
          (filteredMatches entries options.source options.event) →
        ([a, b] : List Webhook).Sublist
          (orderedMatches entries options.source options.event) := by
  constructor
  · have hs := List.sorted_mergeSort recvLe_trans recvLe_total
      (filteredMatches entries options.source options.event)
    have hs2 : (orderedMatches entries options.source options.event).Pairwise
        (fun a b => b.receivedAt ≤ a.receivedAt) := by
      refine List.Pairwise.imp ?_ hs
      intro a b h
      exact of_decide_eq_true h
    have hsub : ((getAll entries options).1).Sublist
        (orderedMatches entries options.source options.event) := by
      simp only [getAll]
      exact (List.take_sublist _ _).trans (List.drop_sublist _ _)
    exact List.Pairwise.sublist hsub hs2
  · intro a b hab hsubf
    refine List.pair_sublist_mergeSort recvLe_trans recvLe_total ?_ hsubf
    simp [hab]

/-- Witness for C5: two equal-timestamp events keep their insertion order
through a concrete query, and the returned page is sorted. -/
theorem C5_ordering_witness :
    ([⟨"p", "stripe", "push", [], 7, none, false⟩,
      ⟨"q", "github", "pull", [], 7, none, false⟩] : List Webhook).Sublist
      (orderedMatches
        [("p", ⟨"p", "stripe", "push", [], 7, none, false⟩),
         ("q", ⟨"q", "github", "pull", [], 7, none, false⟩)] none none)
    ∧ ((getAll
        [("p", ⟨"p", "stripe", "push", [], 7, none, false⟩),
         ("q", ⟨"q", "github", "pull", [], 7, none, false⟩)]
        ⟨none, none, none, none⟩).1).Pairwise
      (fun a b => b.receivedAt ≤ a.receivedAt) := by
  have h := C5_ordering
    [("p", ⟨"p", "stripe", "push", [], 7, none, false⟩),
     ("q", ⟨"q", "github", "pull", [], 7, none, false⟩)]
    ⟨none, none, none, none⟩
  exact ⟨h.2 _ _ rfl (List.Sublist.refl _), h.1⟩

/-- Counterexample to C5 as stated: two matching events share a
`receivedAt`; the query returns the earlier-inserted one first, not the
most recently inserted one — stable sort preserves insertion order on
ties, it does not reverse it. -/
theorem C5_tie_order_counterexample :
    (getAll
      [("x", ⟨"x", "stripe", "push", [], 5, none, false⟩),
       ("y", ⟨"y", "github", "pull", [], 5, none, false⟩)]
      ⟨none, none, none, none⟩).1
      = [⟨"x", "stripe", "push", [], 5, none, false⟩,
         ⟨"y", "github", "pull", [], 5, none, false⟩]
    ∧ ([⟨"x", "stripe", "push", [], 5, none, false⟩,
        ⟨"y", "github", "pull", [], 5, none, false⟩] : List Webhook)
      ≠ [⟨"y", "github", "pull", [], 5, none, false⟩,
         ⟨"x", "stripe", "push", [], 5, none, false⟩] := by
  constructor
  · have hord : orderedMatches
        [("x", ⟨"x", "stripe", "push", [], 5, none, false⟩),
         ("y", ⟨"y", "github", "pull", [], 5, none, false⟩)] none none
        = [⟨"x", "stripe", "push", [], 5, none, false⟩,
           ⟨"y", "github", "pull", [], 5, none, false⟩] :=
      List.mergeSort_of_sorted (by decide)
    have hget : (getAll
        [("x", ⟨"x", "stripe", "push", [], 5, none, false⟩),
         ("y", ⟨"y", "github", "pull", [], 5, none, false⟩)]
        ⟨none, none, none, none⟩).1
        = ((orderedMatches
            [("x", ⟨"x", "stripe", "push", [], 5, none, false⟩),
             ("y", ⟨"y", "github", "pull", [], 5, none, false⟩)] none none).drop
              0).take 10 := rfl
    rw [hget, hord]
    rfl
  · decide

/-- C9: for every store state, `page ≥ 1` and `limit ∈ [1,100]`: the total
reported by the storage layer is the number of events matching the filters
before pagination; the returned items are the slice
`[(page-1)*limit, (page-1)*limit + limit)` of the ordered matches; an
out-of-range slice yields the empty list; and the list response carries
`count = |items|`, the echoed `page` and `limit`, and
`totalPages = ⌈totalMatching / limit⌉` (ceiling division). -/
theorem C9_pagination (entries : StoreEntries) (query : QueryWebhooksDto)
    (page limit : Nat) (hqp : query.page = some page)
    (hql : query.limit = some limit) (hp1 : 1 ≤ page) (hl1 : 1 ≤ limit)
    (hl100 : limit ≤ 100) :
    (getAll entries ⟨some page, some limit, query.source, query.event⟩).2
      = (filteredMatches entries query.source query.event).length
    ∧ (findAll entries query).webhooks
      = ((orderedMatches entries query.source query.event).drop
          ((page - 1) * limit)).take limit
    ∧ ((page - 1) * limit ≥ (filteredMatches entries query.source query.event).length →
        (findAll entries query).webhooks = [])
    ∧ (findAll entries query).count = (findAll entries query).webhooks.length
    ∧ (findAll entries query).page = page
    ∧ (findAll entries query).limit = limit
    ∧ (findAll entries query).totalPages
      = (filteredMatches entries query.source query.event).length ⌈/⌉ limit := by
  have hp0 : ¬ page = 0 := by omega
  have hl0 : ¬ limit = 0 := by omega
  have hgp : jsOrNat (some page) 1 = page := by simp [jsOrNat, hp0]
  have hgl : jsOrNat (some limit) 10 = limit := by simp [jsOrNat, hl0]
  have hlen : (orderedMatches entries query.source query.event).length
      = (filteredMatches entries query.source query.event).length :=
    orderedMatches_length entries query.source query.event
  have hga : getAll entries ⟨some page, some limit, query.source, query.event⟩
      = (((orderedMatches entries query.source query.event).drop
            ((page - 1) * limit)).take limit,
         (filteredMatches entries query.source query.event).length) := by
    simp [getAll, hgp, hgl, hlen]
  have hfa : findAll entries query
      = ⟨((orderedMatches entries query.source query.event).drop
            ((page - 1) * limit)).take limit,
         (((orderedMatches entries query.source query.event).drop
            ((page - 1) * limit)).take limit).length,
         page, limit,
         ((filteredMatches entries query.source query.event).length + limit - 1)
           / limit⟩ := by
    simp [findAll, hqp, hql, hga]
  refine ⟨?_, ?_, ?_, ?_, ?_, ?_, ?_⟩
  · rw [hga]
  · rw [hfa]
  · intro hout
    rw [hfa]
    have hd : (orderedMatches entries query.source query.event).drop
        ((page - 1) * limit) = [] :=
      List.drop_eq_nil_of_le (by omega)
    simp [hd]
  · rw [hfa]
  · rw [hfa]
  · rw [hfa]
  · rw [hfa]
    rw [Nat.ceilDiv_eq_add_pred_div]

/-- A 25-event store with equal timestamps and distinct ids, used to
witness the pagination claim. -/
def paginationSample : StoreEntries :=
  (List.range 25).map fun i =>
    (toString i, ⟨toString i, "stripe", "push", [], 0, none, false⟩)

/-- Witness for C9: with 25 stored events, `page = 2, limit = 10` yields
exactly 10 items and `totalPages = 3`; `totalMatching = 25`; and `page = 4`
is out of range and yields the empty list. -/
theorem C9_pagination_witness :
    (findAll paginationSample ⟨some 2, some 10, none, none⟩).webhooks.length = 10
    ∧ (findAll paginationSample ⟨some 2, some 10, none, none⟩).totalPages = 3
    ∧ (getAll paginationSample ⟨some 2, some 10, none, none⟩).2 = 25
    ∧ (findAll paginationSample ⟨some 4, some 10, none, none⟩).webhooks = [] := by
  have h := C9_pagination paginationSample ⟨some 2, some 10, none, none⟩ 2 10
    rfl rfl (by decide) (by decide) (by decide)
  have h4 := C9_pagination paginationSample ⟨some 4, some 10, none, none⟩ 4 10
    rfl rfl (by decide) (by decide) (by decide)
  refine ⟨?_, ?_, ?_, ?_⟩
  · rw [h.2.1, List.length_take, List.length_drop,
      orderedMatches_length paginationSample none none]
    decide
  · rw [h.2.2.2.2.2.2]
    decide
  · rw [h.1]
    decide
  · exact h4.2.2.1 (by decide)

end WebhookService
